import Mathlib

/-!
Shallow embedding of `logstash_index_cleaner.py` (expire-logs repository).

Python strings are modelled as `List Char`; Python `int` as `Int`;
Python `float` (used only for the disk budget and the running disk-usage
accumulator) as `Rat`; the ambient clock `time.time() + time.altzone` and
the collaborator (Elasticsearch connection) are passed explicitly: the
index listing as a `List Str` and the per-index size query as a function
`Str → Int`.  Fallible Python operations (`int(...)` raising `ValueError`,
`time.mktime` on a wrong-arity tuple raising `TypeError`) are modelled
with `Option`.
-/

namespace ExpireLogs

/-- Python strings are modelled as lists of characters. -/
abbrev Str := List Char

/-- Abbreviation turning a Lean string literal into the `List Char` model. -/
def strLit (s : String) : Str := s.toList

/-- Worker for `pySplit`: scans the string left to right; on each
nonoverlapping occurrence of the separator (first char `sc`, rest `srest`)
it emits the accumulated chunk (held reversed in `acc`) and restarts.
Structural recursion on a fuel argument keeps the definition
kernel-reducible; every step consumes at least one character, so any fuel
at least the length of the string gives the untruncated split. -/
def splitF (sc : Char) (srest : Str) : Nat → Str → Str → List Str
  | _, [], acc => [acc.reverse]
  | 0, _ :: _, acc => [acc.reverse]
  | fuel + 1, c :: rest, acc =>
    if c = sc ∧ srest.isPrefixOf rest then
      acc.reverse :: splitF sc srest fuel (rest.drop srest.length) []
    else
      splitF sc srest fuel rest (c :: acc)

/-- Python `s.split(sep)` for a nonempty separator: splits on each
nonoverlapping occurrence, left to right, keeping empty chunks.
(Python raises `ValueError` on an empty separator; that case is mapped to
the unsplit string and is never reached by the claims.) -/
def pySplit (sep : Str) (s : Str) : List Str :=
  match sep with
  | [] => [s]
  | sc :: srest => splitF sc srest s.length s []

/-- Python `s.isdigit()`: true iff `s` is nonempty and all characters are
digits. -/
def pyIsDigit (s : Str) : Bool := !s.isEmpty && s.all Char.isDigit

/-- Decimal value of a digit string. -/
def digitsVal (s : Str) : Nat := s.foldl (fun acc c => 10 * acc + (c.toNat - 48)) 0

/-- Python `int(s)` on a stripped string: an optional sign followed by a
nonempty run of digits; anything else raises `ValueError`, modelled as
`none`. -/
def pyInt (s : Str) : Option Int :=
  match s with
  | [] => none
  | c :: rest =>
    if c = '-' then
      if pyIsDigit rest then some (-(digitsVal rest : Int)) else none
    else if c = '+' then
      if pyIsDigit rest then some ((digitsVal rest : Int)) else none
    else if pyIsDigit (c :: rest) then some ((digitsVal (c :: rest) : Int)) else none

/-- Days from the Unix epoch (1970-01-01) of the proleptic Gregorian date
`(y, m, d)`, by the standard civil-calendar formula (Int division truncates
toward zero, matching C; all intermediate values here are nonnegative for
the in-range dates the claims use). -/
def daysFromCivil (y m d : Int) : Int :=
  let y2 : Int := if m ≤ 2 then y - 1 else y
  let era : Int := (if 0 ≤ y2 then y2 else y2 - 399) / 400
  let yoe : Int := y2 - era * 400
  let mp : Int := (m + 9) % 12
  let doy : Int := (153 * mp + 2) / 5 + d - 1
  let doe : Int := yoe * 365 + yoe / 4 - yoe / 100 + doy
  era * 146097 + doe - 719468

/-- Models `time.mktime((y, m, d, h, 0, 0, 0, 0, 0))` with the process
timezone fixed at UTC: seconds since the Unix epoch of date `(y, m, d)` at
hour `h`.  The scripts clock `time.time() + time.altzone` is modelled by
the explicit `utc_now_time` parameter under the same convention. -/
def mktime (y m d h : Int) : Int := daysFromCivil y m d * 86400 + h * 3600

/-- Embedding of `get_index_epoch(index_timestamp, separator='.')`
(source lines 66-77): splits the timestamp on the separator, appends the
synthetic hour string `'3'` when exactly 3 parts result, then converts the
integer parts with `time.mktime`.  `none` models the exceptions Python
would raise: `ValueError` from `int(part)` on a non-numeric part, or
`TypeError` from `mktime` when the final tuple does not have 9 fields
(i.e. the split did not yield 3 or 4 parts). -/
def get_index_epoch (index_timestamp : Str) (separator : Str) : Option Int :=
  let parts0 := pySplit separator index_timestamp
  let parts := if parts0.length = 3 then parts0 ++ [['3']] else parts0
  match parts with
  | [ys, ms, ds, hs] =>
    match pyInt ys, pyInt ms, pyInt ds, pyInt hs with
    | some y, some m, some d, some h => some (mktime y m d h)
    | _, _, _, _ => none
  | _ => none

/-- Boolean lexicographic order on strings by code point, matching Python
string comparison as used by `sorted`. -/
def lexLeB : Str → Str → Bool
  | [], _ => true
  | _ :: _, [] => false
  | a :: as, b :: bs => if a < b then true else if b < a then false else lexLeB as bs

/-- Propositional form of `lexLeB`, used as the sort relation. -/
def lexLe (a b : Str) : Prop := lexLeB a b = true

instance : DecidableRel lexLe := fun a b => by
  unfold lexLe; infer_instance

/-- Models `sorted(set(connection.get_indices().keys()))`: deduplicate the
listing and sort ascending lexicographically. -/
def sortedDedup (listing : List Str) : List Str :=
  List.insertionSort lexLe listing.dedup

/-- Per-index outcome of one iteration of the `find_expired_indices` loop
body (source lines 97-136). -/
inductive Decision where
  | skip
  | yielded (expired_by : Int)
  | retain
  | err
  deriving DecidableEq

/-- Embedding of the loop body of `find_expired_indices` for one index
name (source lines 97-136).  Mirrors the source exactly: the name must
start with the configured index-name start `pre`, then
`index_name[len(pre)+1:]` (note the extra `+1` in the source) is split on
the configured separator and validated (3 or 4 all-digit parts), the
cutoff matching the granularity must be present, and finally
`get_index_epoch(unprefixed_index_name)` is called WITHOUT passing the
configured separator, so it splits on the default `'.'` (source line 128);
`err` models the uncaught `ValueError`/`TypeError` escaping from that
call. -/
def classify_index (days_cutoff hours_cutoff : Option Int) (separator pre : Str)
    (index_name : Str) : Decision :=
  if ¬ pre.isPrefixOf index_name then .skip
  else
    let unprefixed_index_name := index_name.drop (pre.length + 1)
    let parts := pySplit separator unprefixed_index_name
    if parts.length < 3 ∨ 4 < parts.length ∨ ¬ (parts.all pyIsDigit) then .skip
    else
      let cutoff := if parts.length = 3 then days_cutoff else hours_cutoff
      match cutoff with
      | none => .skip
      | some c =>
        match get_index_epoch unprefixed_index_name (strLit ".") with
        | none => .err
        | some index_epoch =>
          if index_epoch < c then .yielded (c - index_epoch) else .retain

/-- Proof-side normal form of the cutoff-independent part of
`classify_index`: `none` when the index is skipped at the name-start check
or at validation; otherwise whether the suffix has 3 parts (daily) and the
result of the epoch conversion. -/
def preparse (separator pre index_name : Str) : Option (Bool × Option Int) :=
  if ¬ pre.isPrefixOf index_name then none
  else
    let unprefixed_index_name := index_name.drop (pre.length + 1)
    let parts := pySplit separator unprefixed_index_name
    if parts.length < 3 ∨ 4 < parts.length ∨ ¬ (parts.all pyIsDigit) then none
    else some (parts.length == 3, get_index_epoch unprefixed_index_name (strLit "."))

/-- Runs the `find_expired_indices` loop over an already sorted,
deduplicated listing, collecting the yielded `(index_name, expired_by)`
pairs in order.  The `Bool` component records whether the generator
aborted with an uncaught exception (in which case the pairs yielded
before the abort are kept and the traversal stops, as a Python `for` loop
over the generator would). -/
def run_expired (days_cutoff hours_cutoff : Option Int) (separator pre : Str) :
    List Str → List (Str × Int) × Bool
  | [] => ([], false)
  | n :: rest =>
    match classify_index days_cutoff hours_cutoff separator pre n with
    | .err => ([], true)
    | .yielded e =>
      let r := run_expired days_cutoff hours_cutoff separator pre rest
      ((n, e) :: r.1, r.2)
    | _ => run_expired days_cutoff hours_cutoff separator pre rest

/-- Embedding of `find_expired_indices` (source lines 80-136).  The
collaborator's `get_indices().keys()` is the explicit `listing`; the
ambient `time.time() + time.altzone` is the explicit `utc_now_time`.
Cutoffs follow source lines 90-94: `days_cutoff = now - days*86400` when
days_to_keep is not None, `hours_cutoff = now - hours*3600` when
hours_to_keep is not None. -/
def find_expired_indices (listing : List Str) (utc_now_time : Int)
    (days_to_keep hours_to_keep : Option Int) (separator pre : Str) :
    List (Str × Int) × Bool :=
  let days_cutoff := days_to_keep.map fun d => utc_now_time - d * 24 * 60 * 60
  let hours_cutoff := hours_to_keep.map fun h => utc_now_time - h * 60 * 60
  run_expired days_cutoff hours_cutoff separator pre (sortedDedup listing)

/-- Runs the `find_overusage_indices` loop (source lines 151-171) over an
already reversed-sorted listing with the running `disk_usage` accumulator
(a Python float, modelled as `Rat`); `index_size` for each name comes from
the collaborator query `sizes`. -/
def run_overusage (sizes : Str → Int) (pre : Str) (disk_limit : Rat) :
    List Str → Rat → List (Str × Int)
  | [], _ => []
  | n :: rest, disk_usage =>
    if ¬ pre.isPrefixOf n then run_overusage sizes pre disk_limit rest disk_usage
    else
      let disk_usage2 := disk_usage + (sizes n : Rat)
      if disk_limit < disk_usage2 then
        (n, 0) :: run_overusage sizes pre disk_limit rest disk_usage2
      else
        run_overusage sizes pre disk_limit rest disk_usage2

/-- Embedding of `find_overusage_indices` (source lines 139-171): walks
`reversed(sorted(set(listing)))` (newest first), accumulating primary
sizes of indices that carry the configured name start, and yields
`(index_name, 0)` for every index reached while `disk_usage > disk_limit`,
where `disk_limit = disk_space_to_keep * 2^30`.  The `separator` parameter
is accepted and unused, exactly as in the source. -/
def find_overusage_indices (listing : List Str) (sizes : Str → Int)
    (disk_space_to_keep : Rat) (separator pre : Str) : List (Str × Int) :=
  run_overusage sizes pre (disk_space_to_keep * 2 ^ 30)
    ((sortedDedup listing).reverse) 0

/-- Python truthiness of an argparse integer option: `None` and `0` are
falsy. -/
def py_truthy_int : Option Int → Bool
  | none => false
  | some v => v ≠ 0

/-- Python truthiness of an argparse float option: `None` and `0.0` are
falsy. -/
def py_truthy_rat : Option Rat → Bool
  | none => false
  | some v => v ≠ 0

/-- Observable effects of the usage-error branch of `main` (source lines
178-184). -/
structure UsageOutcome where
  error_message_printed : Bool
  help_text_printed : Bool
  attribute_error_raised : Bool
  collaborator_contacted : Bool
  deriving DecidableEq

/-- Embedding of the argument check at the top of `main` (source lines
178-187).  When none of `hours_to_keep`, `days_to_keep`,
`disk_space_to_keep` is truthy, the source prints the invalid-arguments
message and then evaluates `parser.print_help()`; at module level `parser`
is the function defined on lines 37-63, and a Python function object has
no `print_help` attribute, so that call raises `AttributeError` before any
help text is printed and before the `pyes.ES` connection on line 187 is
reached.  `none` means the check passes and `main` proceeds to connect. -/
def main_arg_check (hours_to_keep days_to_keep : Option Int)
    (disk_space_to_keep : Option Rat) : Option UsageOutcome :=
  if ¬ (py_truthy_int hours_to_keep) ∧ ¬ (py_truthy_int days_to_keep) ∧
      ¬ (py_truthy_rat disk_space_to_keep) then
    some { error_message_printed := true
           help_text_printed := false
           attribute_error_raised := true
           collaborator_contacted := false }
  else
    none

/-- Observable effects of the deletion loop of `main` (source lines
213-231): how many "Would have attempted deleting" notifications were
printed, and which indices were passed to
`connection.delete_index_if_exists`, in order. -/
structure ExecTrace where
  would_delete_count : Nat
  delete_calls : List Str
  deriving DecidableEq

/-- Embedding of the deletion loop of `main` (source lines 213-231): for
each selected `(index_name, expired_by)` pair, dry-run mode prints the
would-delete notification and continues; otherwise the delete call is
issued to the collaborator (its success only affects logging). -/
def run_deletions (dry_run : Bool) : List (Str × Int) → ExecTrace
  | [] => { would_delete_count := 0, delete_calls := [] }
  | (index_name, _) :: rest =>
    let t := run_deletions dry_run rest
    if dry_run then
      { t with would_delete_count := t.would_delete_count + 1 }
    else
      { t with delete_calls := index_name :: t.delete_calls }

/-- Disk-usage selection as the specs words describe it (section 4.3 as
amended): scanning newest first, accumulate the sizes of indices carrying
the configured name start; the index that tips the running total over the
limit is yielded together with every later (strictly older) matching
index.  This definition follows the specs wording and is compared against
`find_overusage_indices`, which is translated from the source. -/
def over_spec (sizes : Str → Int) (pre : Str) (disk_limit : Rat) :
    List Str → Rat → List Str
  | [], _ => []
  | n :: rest, disk_usage =>
    if ¬ pre.isPrefixOf n then over_spec sizes pre disk_limit rest disk_usage
    else
      let disk_usage2 := disk_usage + (sizes n : Rat)
      if disk_limit < disk_usage2 then
        n :: rest.filter (fun m => pre.isPrefixOf m)
      else
        over_spec sizes pre disk_limit rest disk_usage2

/-- Splitting the empty string gives one empty chunk, for any fuel. -/
theorem splitF_nil (sc : Char) (srest : Str) (fuel : Nat) (acc : Str) :
    splitF sc srest fuel [] acc = [acc.reverse] := by
  cases fuel <;> rfl

/-- The fuel argument of `splitF` is irrelevant once it covers the length
of the string being split. -/
theorem splitF_fuel_congr (sc : Char) (srest : Str) :
    ∀ (fuel1 fuel2 : Nat) (s acc : Str), s.length ≤ fuel1 → s.length ≤ fuel2 →
      splitF sc srest fuel1 s acc = splitF sc srest fuel2 s acc := by
  intro fuel1
  induction fuel1 with
  | zero =>
    intro fuel2 s acc h1 _
    have hs : s = [] := List.eq_nil_of_length_eq_zero (Nat.le_zero.mp h1)
    subst hs
    simp [splitF_nil]
  | succ f1 ih =>
    intro fuel2 s acc h1 h2
    cases s with
    | nil => simp [splitF_nil]
    | cons c rest =>
      cases fuel2 with
      | zero => simp at h2
      | succ f2 =>
        simp only [splitF]
        by_cases h : c = sc ∧ srest.isPrefixOf rest
        · simp only [if_pos h]
          have hlen : (rest.drop srest.length).length ≤ f1 := by
            simp only [List.length_drop]
            simp only [List.length_cons] at h1
            omega
          have hlen2 : (rest.drop srest.length).length ≤ f2 := by
            simp only [List.length_drop]
            simp only [List.length_cons] at h2
            omega
          rw [ih f2 _ _ hlen hlen2]
        · simp only [if_neg h]
          have hlen : rest.length ≤ f1 := by
            simp only [List.length_cons] at h1; omega
          have hlen2 : rest.length ≤ f2 := by
            simp only [List.length_cons] at h2; omega
          rw [ih f2 _ _ hlen hlen2]

/-- Splitting a string that contains no occurrence of the single-character
separator gives a single chunk. -/
theorem splitF_no_sep (sc : Char) :
    ∀ (s acc : Str) (fuel : Nat), s.length ≤ fuel → (∀ c ∈ s, c ≠ sc) →
      splitF sc [] fuel s acc = [acc.reverse ++ s] := by
  intro s
  induction s with
  | nil => intro acc fuel _ _; simp [splitF_nil]
  | cons c rest ih =>
    intro acc fuel hfuel hs
    cases fuel with
    | zero => simp at hfuel
    | succ f =>
      simp only [splitF]
      have hc : ¬ (c = sc ∧ List.isPrefixOf [] rest) := by
        intro hcontra
        exact hs c (List.mem_cons_self c rest) hcontra.1
      rw [if_neg hc]
      have hlen : rest.length ≤ f := by
        simp only [List.length_cons] at hfuel; omega
      rw [ih (c :: acc) f hlen (fun x hx => hs x (List.mem_cons_of_mem c hx))]
      simp

/-- Splitting a string of the form `y ++ sc :: u` where `y` avoids the
single-character separator `sc` emits `y` and continues with `u`. -/
theorem splitF_sep_append (sc : Char) :
    ∀ (y : Str) (u acc : Str) (fuel : Nat), (y ++ sc :: u).length ≤ fuel →
      (∀ c ∈ y, c ≠ sc) →
      splitF sc [] fuel (y ++ sc :: u) acc
        = (acc.reverse ++ y) :: splitF sc [] u.length u [] := by
  intro y
  induction y with
  | nil =>
    intro u acc fuel hfuel _
    cases fuel with
    | zero => simp at hfuel
    | succ f =>
      have hp : List.isPrefixOf ([] : Str) u = true := List.isPrefixOf_nil_left
      have hlen : u.length ≤ f := by
        simp only [List.nil_append, List.length_cons] at hfuel; omega
      simp only [List.nil_append, splitF, hp, and_true, true_and, eq_self_iff_true,
        if_true, List.length_nil, List.drop_zero]
      rw [splitF_fuel_congr sc [] f u.length u [] hlen (Nat.le_refl _)]
      simp
  | cons c y ih =>
    intro u acc fuel hfuel hy
    cases fuel with
    | zero => simp at hfuel
    | succ f =>
      have hcne : c ≠ sc := hy c (List.mem_cons_self c y)
      simp only [List.cons_append, splitF, List.append_eq, hcne, false_and, if_false]
      have hlen : (y ++ sc :: u).length ≤ f := by
        simp only [List.cons_append, List.length_cons] at hfuel; omega
      rw [ih u (c :: acc) f hlen (fun x hx => hy x (List.mem_cons_of_mem c hx))]
      simp

/-- A digit character is not a separator dot, a minus sign, or a plus
sign. -/
theorem digit_ne_special {c : Char} (h : c.isDigit = true) :
    c ≠ '.' ∧ c ≠ '-' ∧ c ≠ '+' := by
  refine ⟨?_, ?_, ?_⟩ <;> intro he <;> subst he <;> simp [Char.isDigit] at h

/-- Python `int` succeeds on every string that passes `isdigit`. -/
theorem pyInt_of_digits {s : Str} (h : pyIsDigit s = true) :
    pyInt s = some ((digitsVal s : Nat) : Int) := by
  cases s with
  | nil => simp [pyIsDigit] at h
  | cons c rest =>
    have hc : c.isDigit = true := by
      simp [pyIsDigit, List.all_cons] at h
      exact h.1
    obtain ⟨_, h2, h3⟩ := digit_ne_special hc
    simp only [pyInt, if_neg h2, if_neg h3, if_pos h]

/-- Splitting a dot-joined three-part string on the default separator
recovers the three parts, when no part contains a dot. -/
theorem pySplit_dot_three (y m d : Str) (hy : ∀ c ∈ y, c ≠ '.')
    (hm : ∀ c ∈ m, c ≠ '.') (hd : ∀ c ∈ d, c ≠ '.') :
    pySplit (strLit ".") (y ++ '.' :: (m ++ '.' :: d)) = [y, m, d] := by
  show splitF '.' [] (y ++ '.' :: (m ++ '.' :: d)).length
      (y ++ '.' :: (m ++ '.' :: d)) [] = [y, m, d]
  rw [splitF_sep_append '.' y _ [] _ (le_refl _) hy]
  rw [splitF_sep_append '.' m _ [] _ (le_refl _) hm]
  rw [splitF_no_sep '.' d [] d.length (le_refl _) hd]
  simp

/-- Splitting a dot-joined four-part string on the default separator
recovers the four parts, when no part contains a dot. -/
theorem pySplit_dot_four (y m d h4 : Str) (hy : ∀ c ∈ y, c ≠ '.')
    (hm : ∀ c ∈ m, c ≠ '.') (hd : ∀ c ∈ d, c ≠ '.') (hh : ∀ c ∈ h4, c ≠ '.') :
    pySplit (strLit ".") (y ++ '.' :: (m ++ '.' :: (d ++ '.' :: h4)))
      = [y, m, d, h4] := by
  show splitF '.' [] (y ++ '.' :: (m ++ '.' :: (d ++ '.' :: h4))).length
      (y ++ '.' :: (m ++ '.' :: (d ++ '.' :: h4))) [] = [y, m, d, h4]
  rw [splitF_sep_append '.' y _ [] _ (le_refl _) hy]
  rw [splitF_sep_append '.' m _ [] _ (le_refl _) hm]
  rw [splitF_sep_append '.' d _ [] _ (le_refl _) hd]
  rw [splitF_no_sep '.' h4 [] h4.length (le_refl _) hh]
  simp

/-- A string passing `isdigit` contains no dot. -/
theorem no_dot_of_digits {s : Str} (h : pyIsDigit s = true) :
    ∀ c ∈ s, c ≠ '.' := by
  intro c hc
  have hdig : c.isDigit = true := by
    simp only [pyIsDigit, Bool.and_eq_true, List.all_eq_true] at h
    exact h.2 c hc
  exact (digit_ne_special hdig).1

/-- Claim C1 (code_bug evidence).  With days_to_keep = 5, current date
2024.03.10, name start `logstash-` and separator `.`, the claim says
`logstash-2024.03.01` is selected and `logstash-2024.03.08` is retained.
The code instead yields BOTH: line 101 drops `len(prefix)+1` characters,
so `logstash-2024.03.08` is parsed as date `024.03.08` (year 24), whose
epoch lies far below the cutoff. -/
theorem c1_clean_run_selects_two_day_old_index :
    (find_expired_indices
        [strLit "logstash-2024.03.01", strLit "logstash-2024.03.08"]
        (mktime 2024 3 10 0) (some 5) none (strLit ".")
        (strLit "logstash-")).1.map Prod.fst
      = [strLit "logstash-2024.03.01", strLit "logstash-2024.03.08"] := by
  decide

/-- Claim C3.  For i1 = logstash-2024.03.03 (newest, 1 GB),
i2 = logstash-2024.03.02 (2 GB), i3 = logstash-2024.03.01 (oldest, 1 GB)
and a 2 GB budget, the newest-first scan keeps i1 and yields exactly
[i2, i3] (each with the zero placeholder). -/
theorem c3_disk_usage_example :
    find_overusage_indices
        [strLit "logstash-2024.03.01", strLit "logstash-2024.03.03",
         strLit "logstash-2024.03.02"]
        (fun n =>
          if n = strLit "logstash-2024.03.03" then 2 ^ 30
          else if n = strLit "logstash-2024.03.02" then 2 * 2 ^ 30
          else 2 ^ 30)
        2 (strLit ".") (strLit "logstash-")
      = [(strLit "logstash-2024.03.02", 0), (strLit "logstash-2024.03.01", 0)] := by
  norm_num [find_overusage_indices, run_overusage, sortedDedup, strLit,
    show ('2' : Char) ≠ '3' from by decide, show ('1' : Char) ≠ '3' from by decide,
    show ('1' : Char) ≠ '2' from by decide]

/-- Claim C4 (code_bug evidence).  With separator `-`, the index
`logstash-a2024-03-01` passes validation (its suffix after the
length+1 drop splits on `-` into the all-digit parts 2024, 03, 01), but
line 128 calls `get_index_epoch` without the configured separator, so the
epoch conversion splits on the default `.`, `int('2024-03-01')` raises
`ValueError`, and the whole run aborts instead of agreeing with the
validation split. -/
theorem c4_epoch_conversion_uses_default_separator :
    (pySplit (strLit "-") (strLit "2024-03-01")).all pyIsDigit = true
      ∧ get_index_epoch (strLit "2024-03-01") (strLit ".") = none
      ∧ find_expired_indices [strLit "logstash-a2024-03-01"] 0 (some 5) none
          (strLit "-") (strLit "logstash-") = ([], true) := by
  decide

/-- Claim C5 (code_bug evidence).  With no retention or budget option, the
usage-error branch prints the invalid-arguments message but then raises
`AttributeError` (line 183 calls `print_help` on the module-level function
`parser`, not on an `ArgumentParser` instance), so the help text is never
printed; the collaborator is still never contacted. -/
theorem c5_usage_error_prints_no_help :
    main_arg_check none none none
      = some { error_message_printed := true, help_text_printed := false,
               attribute_error_raised := true, collaborator_contacted := false } := by
  decide

/-- Claim C8.  Under dry-run mode, for every sequence of selected indices
the deletion loop issues zero delete calls to the collaborator and prints
exactly one would-delete notification per selected index. -/
theorem c8_dry_run_no_deletes (selected : List (Str × Int)) :
    run_deletions true selected
      = { would_delete_count := selected.length, delete_calls := [] } := by
  induction selected with
  | nil => rfl
  | cons p rest ih => simp [run_deletions, ih]

/-- Claim C10.  A retention or budget value of zero is falsy in the
`main` argument check, so supplying only a zero value takes exactly the
usage-error path of the all-absent case: message printed, no help (the
`AttributeError` of line 183), and no collaborator contact. -/
theorem c10_zero_option_is_usage_error :
    main_arg_check (some 0) none none = main_arg_check none none none
      ∧ main_arg_check none (some 0) none = main_arg_check none none none
      ∧ main_arg_check none none (some 0) = main_arg_check none none none
      ∧ main_arg_check none none none
          = some { error_message_printed := true, help_text_printed := false,
                   attribute_error_raised := true,
                   collaborator_contacted := false } := by
  decide

/-- Claim C6.  For every valid 3-part numeric suffix Y.M.D, the timestamp
parser yields a point in time, and it is the one obtained from the 4-part
suffix Y.M.D.3: the synthetic hour constant appended on line 74 is the
string 3, not 0. -/
theorem c6_synthetic_hour (y m d : Str) (hy : pyIsDigit y = true)
    (hm : pyIsDigit m = true) (hd : pyIsDigit d = true) :
    get_index_epoch (y ++ '.' :: (m ++ '.' :: d)) (strLit ".")
        = get_index_epoch (y ++ '.' :: (m ++ '.' :: (d ++ ['.', '3']))) (strLit ".")
      ∧ (get_index_epoch (y ++ '.' :: (m ++ '.' :: d)) (strLit ".")).isSome = true := by
  have hy' := no_dot_of_digits hy
  have hm' := no_dot_of_digits hm
  have hd' := no_dot_of_digits hd
  have h3 : ∀ c ∈ (['3'] : Str), c ≠ '.' := by decide
  simp only [get_index_epoch]
  rw [pySplit_dot_three y m d hy' hm' hd', pySplit_dot_four y m d ['3'] hy' hm' hd' h3]
  simp only [List.length_cons, List.length_nil]
  norm_num
  rw [pyInt_of_digits hy, pyInt_of_digits hm, pyInt_of_digits hd,
    pyInt_of_digits (show pyIsDigit ['3'] = true from by decide)]
  simp

/-- Concrete instance of claim C6 at the suffix 2024.03.01, discharging
its digit-string hypotheses. -/
theorem c6_synthetic_hour_witness :
    get_index_epoch (strLit "2024" ++ '.' :: (strLit "03" ++ '.' :: strLit "01"))
          (strLit ".")
        = get_index_epoch
            (strLit "2024" ++ '.' :: (strLit "03" ++ '.' :: (strLit "01" ++ ['.', '3'])))
            (strLit ".")
      ∧ (get_index_epoch (strLit "2024" ++ '.' :: (strLit "03" ++ '.' :: strLit "01"))
          (strLit ".")).isSome = true :=
  c6_synthetic_hour (strLit "2024") (strLit "03") (strLit "01")
    (by decide) (by decide) (by decide)

/-- Every index classification factors through `preparse`: the configured
cutoffs only enter after the name-start check, the validation and the
epoch conversion. -/
theorem classify_index_eq (days_cutoff hours_cutoff : Option Int)
    (sep pre nm : Str) :
    classify_index days_cutoff hours_cutoff sep pre nm =
      match preparse sep pre nm with
      | none => .skip
      | some (three, epOpt) =>
        match (if three then days_cutoff else hours_cutoff) with
        | none => .skip
        | some c =>
          match epOpt with
          | none => .err
          | some ep => if ep < c then .yielded (c - ep) else .retain := by
  unfold classify_index preparse
  dsimp only []
  by_cases hpre : List.isPrefixOf pre nm = true
  · rw [if_neg (not_not_intro hpre), if_neg (not_not_intro hpre)]
    by_cases hval : (pySplit sep (List.drop (List.length pre + 1) nm)).length < 3 ∨
        4 < (pySplit sep (List.drop (List.length pre + 1) nm)).length ∨
        ¬ (pySplit sep (List.drop (List.length pre + 1) nm)).all pyIsDigit = true
    · rw [if_pos hval, if_pos hval]
    · rw [if_neg hval, if_neg hval]
      by_cases h3 : (pySplit sep (List.drop (List.length pre + 1) nm)).length = 3
      · have hb : ((pySplit sep (List.drop (List.length pre + 1) nm)).length == 3)
            = true := by
          rw [beq_iff_eq]; exact h3
        rw [if_pos h3]
        simp only [hb]
        rfl
      · have hb : ((pySplit sep (List.drop (List.length pre + 1) nm)).length == 3)
            = false := by
          rw [beq_eq_false_iff_ne]; exact h3
        rw [if_neg h3]
        simp only [hb]
        rfl
  · rw [if_pos hpre, if_pos hpre]

/-- Membership in the yielded names of a monotone-cutoff run is preserved
when the days cutoff moves later (a smaller retention window): every index
expired under the earlier cutoff is also expired under the later one, and
skip and abort behavior do not depend on the cutoff value. -/
theorem run_expired_mono (c1 c2 : Int) (hc : c2 ≤ c1) (hours_cutoff : Option Int)
    (sep pre : Str) :
    ∀ (l : List Str) (n : Str),
      n ∈ (run_expired (some c2) hours_cutoff sep pre l).1.map Prod.fst →
      n ∈ (run_expired (some c1) hours_cutoff sep pre l).1.map Prod.fst := by
  intro l
  induction l with
  | nil => intro n h; simpa using h
  | cons nm rest ih =>
    intro n hmem
    cases hp : preparse sep pre nm with
    | none =>
      have h2 : classify_index (some c2) hours_cutoff sep pre nm = .skip := by
        rw [classify_index_eq, hp]
        try rfl
      have h1 : classify_index (some c1) hours_cutoff sep pre nm = .skip := by
        rw [classify_index_eq, hp]
        try rfl
      simp only [run_expired, h2] at hmem
      simp only [run_expired, h1]
      exact ih n hmem
    | some pr =>
      obtain ⟨three, epOpt⟩ := pr
      cases three with
      | false =>
        have heq : classify_index (some c2) hours_cutoff sep pre nm
            = classify_index (some c1) hours_cutoff sep pre nm := by
          rw [classify_index_eq, classify_index_eq, hp]
          rfl
        cases h2 : classify_index (some c2) hours_cutoff sep pre nm with
        | err =>
          simp only [run_expired, h2] at hmem
          simp at hmem
        | yielded e =>
          have h1 : classify_index (some c1) hours_cutoff sep pre nm = .yielded e :=
            heq.symm.trans h2
          simp only [run_expired, h2, List.map_cons, List.mem_cons] at hmem
          simp only [run_expired, h1, List.map_cons, List.mem_cons]
          rcases hmem with h | h
          · exact Or.inl h
          · exact Or.inr (ih n h)
        | skip =>
          have h1 : classify_index (some c1) hours_cutoff sep pre nm = .skip :=
            heq.symm.trans h2
          simp only [run_expired, h2] at hmem
          simp only [run_expired, h1]
          exact ih n hmem
        | retain =>
          have h1 : classify_index (some c1) hours_cutoff sep pre nm = .retain :=
            heq.symm.trans h2
          simp only [run_expired, h2] at hmem
          simp only [run_expired, h1]
          exact ih n hmem
      | true =>
        cases epOpt with
        | none =>
          have h2 : classify_index (some c2) hours_cutoff sep pre nm = .err := by
            rw [classify_index_eq, hp]
            rfl
          simp only [run_expired, h2] at hmem
          simp at hmem
        | some ep =>
          by_cases hlt2 : ep < c2
          · have hlt1 : ep < c1 := lt_of_lt_of_le hlt2 hc
            have h2 : classify_index (some c2) hours_cutoff sep pre nm
                = .yielded (c2 - ep) := by
              rw [classify_index_eq, hp]; simp [hlt2]
            have h1 : classify_index (some c1) hours_cutoff sep pre nm
                = .yielded (c1 - ep) := by
              rw [classify_index_eq, hp]; simp [hlt1]
            simp only [run_expired, h2, List.map_cons, List.mem_cons] at hmem
            simp only [run_expired, h1, List.map_cons, List.mem_cons]
            rcases hmem with h | h
            · exact Or.inl h
            · exact Or.inr (ih n h)
          · have h2 : classify_index (some c2) hours_cutoff sep pre nm = .retain := by
              rw [classify_index_eq, hp]; simp [hlt2]
            simp only [run_expired, h2] at hmem
            by_cases hlt1 : ep < c1
            · have h1 : classify_index (some c1) hours_cutoff sep pre nm
                  = .yielded (c1 - ep) := by
                rw [classify_index_eq, hp]; simp [hlt1]
              simp only [run_expired, h1, List.map_cons, List.mem_cons]
              exact Or.inr (ih n hmem)
            · have h1 : classify_index (some c1) hours_cutoff sep pre nm = .retain := by
                rw [classify_index_eq, hp]; simp [hlt1]
              simp only [run_expired, h1]
              exact ih n hmem

/-- Claim C7.  With the same listing, clock, hourly retention, separator
and name start, increasing days_to_keep never adds an index to the
expired selection: every index name selected with the larger retention d2
is also selected with the smaller retention d1. -/
theorem c7_days_to_keep_monotone (listing : List Str) (utc_now_time : Int)
    (hours_to_keep : Option Int) (sep pre : Str) (d1 d2 : Int) (hd : d1 ≤ d2)
    (n : Str)
    (hn : n ∈ (find_expired_indices listing utc_now_time (some d2) hours_to_keep
        sep pre).1.map Prod.fst) :
    n ∈ (find_expired_indices listing utc_now_time (some d1) hours_to_keep
        sep pre).1.map Prod.fst := by
  have hc : utc_now_time - d2 * 24 * 60 * 60 ≤ utc_now_time - d1 * 24 * 60 * 60 := by
    have h86 : d1 * 86400 ≤ d2 * 86400 :=
      mul_le_mul_of_nonneg_right hd (by norm_num)
    omega
  simp only [find_expired_indices, Option.map_some'] at hn ⊢
  exact run_expired_mono _ _ hc _ sep pre (sortedDedup listing) n hn

/-- Concrete instance of claim C7 with d1 = 1 and d2 = 2, discharging its
hypotheses: the index selected under the 2-day window is still selected
under the 1-day window. -/
theorem c7_days_to_keep_monotone_witness :
    strLit "logstash-2024.03.01" ∈
      (find_expired_indices [strLit "logstash-2024.03.01"] (mktime 2024 3 10 0)
          (some 1) none (strLit ".") (strLit "logstash-")).1.map Prod.fst :=
  c7_days_to_keep_monotone [strLit "logstash-2024.03.01"] (mktime 2024 3 10 0)
    none (strLit ".") (strLit "logstash-") 1 2 (by decide)
    (strLit "logstash-2024.03.01") (by decide)

/-- The malformed index name logstash-2024.03.XY is classified skip under
every cutoff configuration: its suffix fails the all-digit validation
before any cutoff or epoch conversion is consulted. -/
theorem classify_malformed (days_cutoff hours_cutoff : Option Int) :
    classify_index days_cutoff hours_cutoff (strLit ".") (strLit "logstash-")
      (strLit "logstash-2024.03.XY") = .skip := rfl

/-- Removing a skip-classified name from anywhere in the traversal list
leaves the run of the expiration loop unchanged. -/
theorem run_expired_skip_mid (days_cutoff hours_cutoff : Option Int)
    (sep pre x : Str)
    (hx : classify_index days_cutoff hours_cutoff sep pre x = .skip) :
    ∀ (l1 l2 : List Str),
      run_expired days_cutoff hours_cutoff sep pre (l1 ++ x :: l2)
        = run_expired days_cutoff hours_cutoff sep pre (l1 ++ l2) := by
  intro l1
  induction l1 with
  | nil =>
    intro l2
    simp only [List.nil_append, run_expired, hx]
  | cons a l1 ih =>
    intro l2
    cases ha : classify_index days_cutoff hours_cutoff sep pre a <;>
      simp only [List.cons_append, run_expired, ha, List.append_eq, ih l2]

/-- Every name appearing in the yielded pairs of the expiration loop was
classified yielded. -/
theorem mem_run_expired_names (days_cutoff hours_cutoff : Option Int)
    (sep pre : Str) :
    ∀ (l : List Str) (n : Str),
      n ∈ (run_expired days_cutoff hours_cutoff sep pre l).1.map Prod.fst →
      ∃ e, classify_index days_cutoff hours_cutoff sep pre n = .yielded e := by
  intro l
  induction l with
  | nil => intro n h; simp [run_expired] at h
  | cons a rest ih =>
    intro n h
    cases ha : classify_index days_cutoff hours_cutoff sep pre a with
    | err =>
      simp only [run_expired, ha] at h
      simp at h
    | yielded e =>
      simp only [run_expired, ha, List.map_cons, List.mem_cons] at h
      rcases h with h | h
      · exact ⟨e, h ▸ ha⟩
      · exact ih n h
    | skip =>
      simp only [run_expired, ha] at h
      exact ih n h
    | retain =>
      simp only [run_expired, ha] at h
      exact ih n h

/-- Claim C9.  An index whose suffix contains a non-digit part, here
logstash-2024.03.XY, is skipped: adding it to any listing leaves the whole
run of the Expiration Selector unchanged (same yielded pairs, same
no-abort flag, every other index still evaluated as usual), and the
malformed name is never among the yielded names. -/
theorem c9_malformed_index_skipped (listing : List Str) (utc_now_time : Int)
    (days_to_keep hours_to_keep : Option Int) :
    find_expired_indices (strLit "logstash-2024.03.XY" :: listing) utc_now_time
        days_to_keep hours_to_keep (strLit ".") (strLit "logstash-")
      = find_expired_indices listing utc_now_time days_to_keep hours_to_keep
        (strLit ".") (strLit "logstash-")
    ∧ strLit "logstash-2024.03.XY" ∉
        (find_expired_indices (strLit "logstash-2024.03.XY" :: listing)
          utc_now_time days_to_keep hours_to_keep (strLit ".")
          (strLit "logstash-")).1.map Prod.fst := by
  constructor
  · simp only [find_expired_indices, sortedDedup]
    by_cases hmem : strLit "logstash-2024.03.XY" ∈ listing
    · rw [List.dedup_cons_of_mem hmem]
    · rw [List.dedup_cons_of_not_mem hmem]
      simp only [List.insertionSort]
      rw [List.orderedInsert_eq_take_drop]
      rw [run_expired_skip_mid _ _ _ _ _ (classify_malformed _ _)]
      rw [List.takeWhile_append_dropWhile]
  · intro hmem
    obtain ⟨e, he⟩ := mem_run_expired_names _ _ _ _ _ _ hmem
    rw [classify_malformed] at he
    exact Decision.noConfusion he

/-- Once the running disk usage is strictly over the limit, the rest of
the scan yields every index carrying the configured name start (sizes
being nonnegative, the accumulator can never fall back under the
limit). -/
theorem run_overusage_all_over (sizes : Str → Int) (pre : Str) (disk_limit : Rat) :
    ∀ (scan : List Str) (u : Rat), (∀ x ∈ scan, 0 ≤ sizes x) → disk_limit < u →
      (run_overusage sizes pre disk_limit scan u).map Prod.fst
        = scan.filter (fun m => pre.isPrefixOf m) := by
  intro scan
  induction scan with
  | nil => intro u _ _; rfl
  | cons n rest ih =>
    intro u hnn hlt
    have hrest : ∀ x ∈ rest, 0 ≤ sizes x :=
      fun x hx => hnn x (List.mem_cons_of_mem n hx)
    by_cases hp : pre.isPrefixOf n = true
    · have hsz : (0 : Rat) ≤ (sizes n : Rat) := by
        exact_mod_cast hnn n (List.mem_cons_self n rest)
      have hlt2 : disk_limit < u + (sizes n : Rat) :=
        lt_of_lt_of_le hlt (le_add_of_nonneg_right hsz)
      simp only [run_overusage, not_true, if_neg, List.filter_cons, hp, if_true,
        not_not_intro hp, ite_false, if_false, hlt2, List.map_cons]
      rw [ih (u + (sizes n : Rat)) hrest hlt2]
    · simp only [run_overusage, hp, List.filter_cons, Bool.false_eq_true,
        not_false_iff, if_true, ite_true, ite_false]
      rw [ih u hrest hlt]

/-- The names yielded by the disk-usage scan translated from the source
are exactly those described by the specs amended wording: the index that
tips the accumulator over the limit and every later matching index. -/
theorem run_overusage_eq_over_spec (sizes : Str → Int) (pre : Str)
    (disk_limit : Rat) :
    ∀ (scan : List Str) (u : Rat), (∀ x ∈ scan, 0 ≤ sizes x) →
      (run_overusage sizes pre disk_limit scan u).map Prod.fst
        = over_spec sizes pre disk_limit scan u := by
  intro scan
  induction scan with
  | nil => intro u _; rfl
  | cons n rest ih =>
    intro u hnn
    have hrest : ∀ x ∈ rest, 0 ≤ sizes x :=
      fun x hx => hnn x (List.mem_cons_of_mem n hx)
    by_cases hp : pre.isPrefixOf n = true
    · by_cases hlt : disk_limit < u + (sizes n : Rat)
      · simp only [run_overusage, over_spec, hp, not_true, not_not_intro hp,
          ite_false, if_false, hlt, if_true, ite_true, List.map_cons]
        rw [run_overusage_all_over sizes pre disk_limit rest _ hrest hlt]
      · simp only [run_overusage, over_spec, hp, not_not_intro hp, ite_false,
          hlt, if_false]
        exact ih _ hrest
    · simp only [run_overusage, over_spec, hp, Bool.false_eq_true, not_false_iff,
        ite_true, if_true]
      exact ih u hrest

/-- Claim C2, counterexample to the claim as stated.  In the 1 GB / 2 GB /
1 GB scenario with a 2 GB budget, the scan reaches logstash-2024.03.02
with the accumulator at 1 GB (not over the 2 GB limit), adding its 2 GB
tips the accumulator to 3 GB (over the limit) — so it is the tipping
index — and it IS among the yielded names, contradicting the claim that
only indices strictly older than the tipping index are yielded. -/
theorem c2_tipping_index_is_yielded :
    ¬ ((2 : Rat) * 2 ^ 30 < 2 ^ 30)
      ∧ ((2 : Rat) * 2 ^ 30 < 2 ^ 30 + 2 * 2 ^ 30)
      ∧ strLit "logstash-2024.03.02" ∈
          (find_overusage_indices
            [strLit "logstash-2024.03.01", strLit "logstash-2024.03.03",
             strLit "logstash-2024.03.02"]
            (fun n =>
              if n = strLit "logstash-2024.03.03" then 2 ^ 30
              else if n = strLit "logstash-2024.03.02" then 2 * 2 ^ 30
              else 2 ^ 30)
            2 (strLit ".") (strLit "logstash-")).map Prod.fst := by
  refine ⟨by norm_num, by norm_num, ?_⟩
  norm_num [find_overusage_indices, run_overusage, sortedDedup, strLit,
    show ('2' : Char) ≠ '3' from by decide, show ('1' : Char) ≠ '3' from by decide,
    show ('1' : Char) ≠ '2' from by decide]

/-- Claim C2 as amended.  For nonnegative index sizes, the names yielded
by the Disk-Usage Selector are exactly the tipping index — the one whose
size first carries the running total over `disk_limit` — together with
every strictly older index carrying the configured name start, as computed
by the spec-side description `over_spec`. -/
theorem c2_overusage_amended (listing : List Str) (sizes : Str → Int)
    (disk_space_to_keep : Rat) (sep pre : Str)
    (hnn : ∀ x ∈ listing, 0 ≤ sizes x) :
    (find_overusage_indices listing sizes disk_space_to_keep sep pre).map Prod.fst
      = over_spec sizes pre (disk_space_to_keep * 2 ^ 30)
          ((sortedDedup listing).reverse) 0 := by
  apply run_overusage_eq_over_spec
  intro x hx
  apply hnn
  have hx2 : x ∈ sortedDedup listing := List.mem_reverse.mp hx
  simpa [sortedDedup, List.mem_insertionSort, List.mem_dedup] using hx2

/-- Concrete instance of claim C2 as amended, at the 1 GB / 2 GB / 1 GB
scenario, discharging the nonnegative-size hypothesis. -/
theorem c2_overusage_amended_witness :
    (find_overusage_indices
        [strLit "logstash-2024.03.01", strLit "logstash-2024.03.03",
         strLit "logstash-2024.03.02"]
        (fun n =>
          if n = strLit "logstash-2024.03.03" then 2 ^ 30
          else if n = strLit "logstash-2024.03.02" then 2 * 2 ^ 30
          else 2 ^ 30)
        2 (strLit ".") (strLit "logstash-")).map Prod.fst
      = over_spec
          (fun n =>
            if n = strLit "logstash-2024.03.03" then 2 ^ 30
            else if n = strLit "logstash-2024.03.02" then 2 * 2 ^ 30
            else 2 ^ 30)
          (strLit "logstash-")
          (2 * 2 ^ 30)
          ((sortedDedup
            [strLit "logstash-2024.03.01", strLit "logstash-2024.03.03",
             strLit "logstash-2024.03.02"]).reverse) 0 :=
  c2_overusage_amended _ _ 2 (strLit ".") (strLit "logstash-") (by decide)

end ExpireLogs
